import Mathlib

/-!
Shallow embedding of `src/server.js` (quickchat-backend).

The server keeps three module-level JS objects
(`rooms`, `chatHistory`, `socketToUserMap`) plus the socket.io room
membership, and reacts to three socket events (`join-room`,
`send-message`, `disconnect`).  JS objects are modelled as association
lists with string keys, JS `Set` for a room's usernames as an
insertion-ordered duplicate-free `List String`, and every outbound
`emit` as an `Emit` record carrying the list of receiving connection
ids.  Wall-clock reads (`new Date().toLocaleTimeString()`) are an input
of the `send` event (`now`), and the optional client timestamp is an
`Option String` (JS `undefined` becomes `none`).
-/

/-- Embedding of JS `String.prototype.trim`: drop leading and trailing
whitespace. -/
def trimStr (s : String) : String :=
  String.mk (((s.data.dropWhile Char.isWhitespace).reverse.dropWhile Char.isWhitespace).reverse)

/-- One character class of the UUID regex in `isValidUUID`
(`[0-9a-fA-F]`). -/
def isHexDigit (c : Char) : Bool :=
  (('0' ≤ c) && (c ≤ '9')) || (('a' ≤ c) && (c ≤ 'f')) || (('A' ≤ c) && (c ≤ 'F'))

/-- Split a character list at every `'-'` (used to mirror the anchored
group structure of the UUID regex). -/
def splitDash : List Char → List (List Char)
  | [] => [[]]
  | c :: rest =>
    match splitDash rest with
    | [] => [[]]
    | g :: gs => if c = '-' then [] :: g :: gs else (c :: g) :: gs

/-- Embedding of `isValidUUID` from `src/server.js`: the string matches
`^[0-9a-fA-F]{8}-[0-9a-fA-F]{4}-[0-9a-fA-F]{4}-[0-9a-fA-F]{4}-[0-9a-fA-F]{12}$`. -/
def isValidUUID (s : String) : Bool :=
  match splitDash s.data with
  | [a, b, c, d, e] =>
    a.length == 8 && b.length == 4 && c.length == 4 && d.length == 4 && e.length == 12
      && (a ++ b ++ c ++ d ++ e).all isHexDigit
  | _ => false

/-- Lookup in a string-keyed association list (JS `obj[k]`, giving
`none` for a missing key). -/
def findKV {α : Type} : List (String × α) → String → Option α
  | [], _ => none
  | (k, v) :: rest, k' => if k = k' then some v else findKV rest k'

/-- Key removal in a string-keyed association list (JS `delete obj[k]`). -/
def delKV {α : Type} : List (String × α) → String → List (String × α)
  | [], _ => []
  | (k', v) :: rest, k => if k' = k then delKV rest k else (k', v) :: delKV rest k

/-- Key update in a string-keyed association list (JS `obj[k] = v`). -/
def setKV {α : Type} (m : List (String × α)) (k : String) (v : α) : List (String × α) :=
  (k, v) :: delKV m k

/-- Apply `f` to the value at `k` when the key is present, mirroring the
JS pattern `obj[k]?.mutate(...)`. -/
def updKV {α : Type} (m : List (String × α)) (k : String) (f : α → α) : List (String × α) :=
  match findKV m k with
  | some v => setKV m k (f v)
  | none => m

/-- JS `Set.prototype.add` on an insertion-ordered set of usernames. -/
def addUser (l : List String) (u : String) : List String :=
  if u ∈ l then l else l ++ [u]

/-- A chat message as built by the `send-message` handler
(`{ message, username, timestamp }`). -/
structure Message where
  message : String
  username : String
  timestamp : String
deriving DecidableEq, Repr

/-- The per-connection record stored in `socketToUserMap`
(`{ username, roomId }`). -/
structure UserInfo where
  username : String
  roomId : String
deriving DecidableEq, Repr

/-- Payloads the server emits back to clients. -/
inductive Payload where
  | roomError (reason : String)
  | chatHistory (msgs : List Message)
  | updateUsers (users : List String)
  | receiveMessage (m : Message)
deriving DecidableEq, Repr

/-- One outbound emission: the list of connection ids it is delivered
to, and the payload. -/
structure Emit where
  recipients : List String
  payload : Payload
deriving DecidableEq, Repr

/-- The whole in-memory server state: the three module-level objects of
`src/server.js` plus the socket.io room membership of each live socket
(this app keeps every socket in at most one room). -/
structure ServerState where
  rooms : List (String × List String)
  chatHistory : List (String × List Message)
  socketToUserMap : List (String × UserInfo)
  socketRooms : List (String × String)
deriving DecidableEq, Repr

/-- State at server start: every map empty. -/
def initState : ServerState := ⟨[], [], [], []⟩

/-- Member list of a room, `[]` when the room is not in the registry
(JS `rooms[roomId] || []`, as a list in insertion order like
`Array.from`). -/
def membersOf (s : ServerState) (r : String) : List String :=
  (findKV s.rooms r).getD []

/-- History of a room, `[]` when absent (JS `chatHistory[roomId] || []`). -/
def histOf (s : ServerState) (r : String) : List Message :=
  (findKV s.chatHistory r).getD []

/-- Connections currently in socket.io room `r` (the recipients of
`io.to(r)`). -/
def occupants (s : ServerState) (r : String) : List String :=
  (s.socketRooms.filter (fun p => p.2 == r)).map Prod.fst

/-- Embedding of `cleanupRoom` from `src/server.js`: when the room
exists and its member set is empty, delete the room entry and its chat
history. -/
def cleanupRoom (roomId : String) (s : ServerState) : ServerState :=
  match findKV s.rooms roomId with
  | some l =>
    if l.isEmpty then
      { s with rooms := delKV s.rooms roomId, chatHistory := delKV s.chatHistory roomId }
    else s
  | none => s

/-- Embedding of `socket.leave(rid)`: remove the socket from room `rid`
(a no-op when it is not in that room). -/
def leaveRoom (s : ServerState) (c : String) (rid : String) : ServerState :=
  if findKV s.socketRooms c = some rid then
    { s with socketRooms := delKV s.socketRooms c }
  else s

/-- The `Leave any previous rooms` block of the `join-room` handler:
`socket.leave(prev.roomId)`, `rooms[prev.roomId]?.delete(prev.username)`,
`cleanupRoom(prev.roomId)`. -/
def vacatePrev (s : ServerState) (c : String) (prev : UserInfo) : ServerState :=
  let sa := leaveRoom s c prev.roomId
  let sb := { sa with rooms := updKV sa.rooms prev.roomId (fun l => l.erase prev.username) }
  cleanupRoom prev.roomId sb

/-- Embedding of the `join-room` handler of `src/server.js`: validate
the room id and username, vacate any previous room (leave it, drop the
old username from its member set, `cleanupRoom`, and notify its
remaining occupants), then join the new room, store the session, send
the chat-history backfill to the joining socket and broadcast the
updated member list to the room. -/
def joinRoom (s : ServerState) (c roomId username : String) : ServerState × List Emit :=
  if !(isValidUUID roomId) then
    (s, [⟨[c], .roomError "Invalid room ID format"⟩])
  else if trimStr username = "" then
    (s, [⟨[c], .roomError "Username is required"⟩])
  else
    let cleanUsername := trimStr username
    let (s1, outs1) : ServerState × List Emit :=
      match findKV s.socketToUserMap c with
      | some prev =>
        let sc := vacatePrev s c prev
        (sc, [⟨occupants sc prev.roomId, .updateUsers (membersOf sc prev.roomId)⟩])
      | none => (s, [])
    let s2 := { s1 with
      socketRooms := setKV s1.socketRooms c roomId,
      socketToUserMap := setKV s1.socketToUserMap c ⟨cleanUsername, roomId⟩ }
    let s3 := { s2 with rooms := setKV s2.rooms roomId (addUser (membersOf s2 roomId) cleanUsername) }
    (s3, outs1 ++ [⟨[c], .chatHistory (histOf s3 roomId)⟩,
                   ⟨occupants s3 roomId, .updateUsers (membersOf s3 roomId)⟩])

/-- Sliding-window trim of a room history to the most recent 100
messages (`if (chatHistory[roomId].length > 100) chatHistory[roomId] =
chatHistory[roomId].slice(-100)`). -/
def trimHist (l : List Message) : List Message :=
  if 100 < l.length then l.drop (l.length - 100) else l

/-- Embedding of the JS expression `timestamp || now`: an omitted or
empty-string timestamp falls back to the server wall clock. -/
def tsOr (timestamp : Option String) (now : String) : String :=
  match timestamp with
  | none => now
  | some t => if t = "" then now else t

/-- Embedding of the `send-message` handler of `src/server.js`:
reject an invalid room id with `room-error`, silently ignore an
empty-after-trim message, reject an empty username with `room-error`,
reject a connection whose session does not name exactly the claimed
room and trimmed username with `room-error`, and otherwise append the
trimmed message (capped to the last 100) to the room history and
broadcast it to every other occupant of the room. -/
def sendMessage (s : ServerState) (c roomId message username : String)
    (timestamp : Option String) (now : String) : ServerState × List Emit :=
  if !(isValidUUID roomId) then
    (s, [⟨[c], .roomError "Invalid room ID"⟩])
  else if trimStr message = "" then
    (s, [])
  else if trimStr username = "" then
    (s, [⟨[c], .roomError "Username is required"⟩])
  else
    match findKV s.socketToUserMap c with
    | none => (s, [⟨[c], .roomError "Unauthorized message"⟩])
    | some info =>
      if info.roomId ≠ roomId ∨ info.username ≠ trimStr username then
        (s, [⟨[c], .roomError "Unauthorized message"⟩])
      else
        let msg : Message := ⟨trimStr message, trimStr username, tsOr timestamp now⟩
        let s' := { s with chatHistory := setKV s.chatHistory roomId (trimHist (histOf s roomId ++ [msg])) }
        (s', [⟨(occupants s' roomId).filter (fun x => x != c), .receiveMessage msg⟩])

/-- Embedding of the `disconnect` handler of `src/server.js`.  The
socket has already left its socket.io rooms when the handler runs; if a
session exists and its room is registered, drop the username from the
member set, notify the remaining occupants, and `cleanupRoom`; in every
case delete the `socketToUserMap` entry. -/
def disconnectHandler (s : ServerState) (c : String) : ServerState × List Emit :=
  let s0 := { s with socketRooms := delKV s.socketRooms c }
  match findKV s0.socketToUserMap c with
  | some info =>
    match findKV s0.rooms info.roomId with
    | some l =>
      let l' := l.erase info.username
      let s1 := { s0 with rooms := setKV s0.rooms info.roomId l' }
      let outs := [⟨occupants s1 info.roomId, Payload.updateUsers l'⟩]
      let s2 := cleanupRoom info.roomId s1
      ({ s2 with socketToUserMap := delKV s2.socketToUserMap c }, outs)
    | none =>
      ({ s0 with socketToUserMap := delKV s0.socketToUserMap c }, [])
  | none =>
    ({ s0 with socketToUserMap := delKV s0.socketToUserMap c }, [])

/-- One inbound socket event.  `send` carries the wall-clock string the
server would read while handling it. -/
inductive Event where
  | join (c roomId username : String)
  | send (c roomId message username : String) (timestamp : Option String) (now : String)
  | disconnect (c : String)
deriving DecidableEq, Repr

/-- Dispatch one event to its handler. -/
def step (s : ServerState) : Event → ServerState × List Emit
  | .join c roomId username => joinRoom s c roomId username
  | .send c roomId message username timestamp now => sendMessage s c roomId message username timestamp now
  | .disconnect c => disconnectHandler s c

/-- State reached after one event (emissions dropped). -/
def stepS (s : ServerState) (e : Event) : ServerState := (step s e).1

/-- State reached after a sequence of events. -/
def runS (s : ServerState) (evs : List Event) : ServerState := evs.foldl stepS s

/-- Room-registry lookup after a vacate step (shared by the rejoin path
of `joinRoom` and by `disconnectHandler`): the departing username is
erased from the vacated room, and the room disappears (with its
history) when that leaves it empty. -/
def vacFind (m : List (String × List String)) (rid u r : String) : Option (List String) :=
  if rid = r then
    match findKV m rid with
    | none => none
    | some la => if la.erase u = [] then none else some (la.erase u)
  else findKV m r

/-- Condition under which the vacate step deletes the vacated room:
the room exists and erasing the departing username empties it. -/
def vacKills (m : List (String × List String)) (rid u : String) : Prop :=
  (findKV m rid).map (fun la => la.erase u) = some []

instance (m : List (String × List String)) (rid u : String) : Decidable (vacKills m rid u) := by
  unfold vacKills; infer_instance

/-- Consistency of the three stores: registered rooms are nonempty
duplicate-free sets, room membership and live sessions mirror each
other, no two connections share one (username, room) session value, and
unregistered rooms have no history entry. -/
structure StInv (s : ServerState) : Prop where
  roomsNonempty : ∀ r l, findKV s.rooms r = some l → l ≠ []
  roomsNodup : ∀ r l, findKV s.rooms r = some l → l.Nodup
  memSess : ∀ r l u, findKV s.rooms r = some l → u ∈ l →
    ∃ c, findKV s.socketToUserMap c = some ⟨u, r⟩
  sessMem : ∀ c info, findKV s.socketToUserMap c = some info →
    ∃ l, findKV s.rooms info.roomId = some l ∧ info.username ∈ l
  sessUnique : ∀ c c' info, findKV s.socketToUserMap c = some info →
    findKV s.socketToUserMap c' = some info → c = c'
  histAbsent : ∀ r, findKV s.rooms r = none → findKV s.chatHistory r = none

/-- States reachable from server start by event sequences in which no
successful join binds a (username, room) pair while another live
connection's session already holds that same pair. -/
inductive ReachableG : ServerState → Prop where
  | init : ReachableG initState
  | join (s : ServerState) (c roomId username : String) (h : ReachableG s)
      (hnd : ∀ c', c' ≠ c →
        findKV s.socketToUserMap c' ≠ some ⟨trimStr username, roomId⟩) :
      ReachableG (stepS s (.join c roomId username))
  | send (s : ServerState) (c roomId message username : String)
      (timestamp : Option String) (now : String) (h : ReachableG s) :
      ReachableG (stepS s (.send c roomId message username timestamp now))
  | disconnect (s : ServerState) (c : String) (h : ReachableG s) :
      ReachableG (stepS s (.disconnect c))

def U1 : String := "11111111-1111-1111-1111-111111111111"

def U2 : String := "22222222-2222-2222-2222-222222222222"

/-- State after a single valid join, reachable with the duplicate-free
restriction. -/
def wState1 : ServerState := stepS initState (.join "c1" U1 "alice")

/-- State after join(c1,U1,alice), join(c2,U1,alice), disconnect(c1):
the duplicate join followed by a disconnect strands c2's session. -/
def cexState1 : ServerState :=
  runS initState [.join "c1" U1 "alice", .join "c2" U1 "alice", .disconnect "c1"]

/-- `cexState1` followed by a send from the stranded session. -/
def cexState2 : ServerState :=
  stepS cexState1 (.send "c2" U1 "hi" "alice" (some "t") "12:00")

/-- The send events fired by connection `c`, joined to room `R` as
`uname`, one per (text, client-timestamp, wall-clock) item. -/
def sendTrace (c R uname : String) (items : List (String × Option String × String)) :
    List Event :=
  items.map (fun it => .send c R it.1 uname it.2.1 it.2.2)

/-- The messages those sends build and store. -/
def sentMsgs (uname : String) (items : List (String × Option String × String)) :
    List Message :=
  items.map (fun it => ⟨trimStr it.1, trimStr uname, tsOr it.2.1 it.2.2⟩)

/-- Items for the 101-send witness run. -/
def wItems : List (String × Option String × String) :=
  List.replicate 101 ("hi", some "t", "12:00")

/-- A one-member room state used by concrete send witnesses. -/
def wState3 : ServerState :=
  ⟨[(U1, ["alice"])], [], [("c1", ⟨"alice", U1⟩)], [("c1", U1)]⟩

/-- A two-member room used as a concrete broadcast witness. -/
def wState7 : ServerState :=
  ⟨[(U1, ["alice", "bob"])], [],
   [("c1", ⟨"alice", U1⟩), ("c2", ⟨"bob", U1⟩)],
   [("c1", U1), ("c2", U1)]⟩

/-- A state whose only session names a room absent from the registry. -/
def wState10 : ServerState := ⟨[], [], [("c1", ⟨"alice", U1⟩)], []⟩

/-- A sole-member room with stored history, for the re-join witness. -/
def wState9 : ServerState :=
  ⟨[(U1, ["alice"])], [(U1, [⟨"old", "alice", "t"⟩])],
   [("c1", ⟨"alice", U1⟩)], [("c1", U1)]⟩

/-- State where c1 is (bob, A), and c2's Session names (alice, A) while
alice is no longer in A's member set — produced by a duplicate "alice"
connection that joined and disconnected. -/
def cexState6pre : ServerState :=
  runS initState [.join "c1" U1 "bob", .join "c2" U1 "alice",
    .join "c3" U1 "alice", .disconnect "c3"]

/-- `cexState6pre` after c2 performs a valid join of room B as "bob". -/
def cexState6 : ServerState := stepS cexState6pre (.join "c2" U2 "bob")

/-! ### Theorems: store lemmas, handler characterizations, the
consistency invariant, and the claim results -/

theorem find_del {α : Type} (m : List (String × α)) (k k' : String) :
    findKV (delKV m k) k' = if k = k' then none else findKV m k' := by
  induction m with
  | nil => simp [findKV, delKV]
  | cons p rest ih =>
    obtain ⟨a, v⟩ := p
    by_cases hak : a = k
    · subst hak
      rw [delKV, if_pos rfl, ih]
      by_cases h : a = k'
      · subst h; simp [findKV]
      · simp [findKV, h]
    · rw [delKV, if_neg hak]
      by_cases h : a = k'
      · subst h
        have hkk' : k ≠ a := fun hk => hak hk.symm
        simp [findKV, hkk']
      · simp [findKV, h, ih]

theorem find_set {α : Type} (m : List (String × α)) (k k' : String) (v : α) :
    findKV (setKV m k v) k' = if k = k' then some v else findKV m k' := by
  by_cases h : k = k'
  · subst h; simp [setKV, findKV]
  · simp [setKV, findKV, h, find_del]

theorem find_upd {α : Type} (m : List (String × α)) (k k' : String) (f : α → α) :
    findKV (updKV m k f) k' =
      if k = k' then (findKV m k).map f else findKV m k' := by
  unfold updKV
  cases hm : findKV m k with
  | none =>
    by_cases h : k = k'
    · subst h; simp [hm]
    · simp [h]
  | some v =>
    by_cases h : k = k'
    · subst h; simp [find_set, hm]
    · simp [find_set, h]

theorem mem_addUser (l : List String) (u v : String) :
    v ∈ addUser l u ↔ v = u ∨ v ∈ l := by
  unfold addUser
  by_cases h : u ∈ l
  · simp only [if_pos h]
    constructor
    · exact fun hv => Or.inr hv
    · rintro (rfl | hv)
      · exact h
      · exact hv
  · simp only [if_neg h, List.mem_append, List.mem_singleton]
    exact or_comm

theorem addUser_ne_nil (l : List String) (u : String) : addUser l u ≠ [] := by
  intro h
  have : u ∈ addUser l u := (mem_addUser l u u).mpr (Or.inl rfl)
  rw [h] at this
  exact absurd this (List.not_mem_nil u)

theorem addUser_nodup (l : List String) (u : String) (h : l.Nodup) :
    (addUser l u).Nodup := by
  unfold addUser
  by_cases hu : u ∈ l
  · simpa [if_pos hu] using h
  · simp only [if_neg hu]
    exact h.append (List.nodup_singleton u)
      (fun x hx hxu => hu ((List.mem_singleton.mp hxu) ▸ hx))

theorem erase_eq_nil_cases (l : List String) (u : String) (h : l.erase u = []) :
    l = [] ∨ l = [u] := by
  cases l with
  | nil => exact Or.inl rfl
  | cons a rest =>
    by_cases ha : a = u
    · subst ha
      simp only [List.erase_cons_head] at h
      subst h
      exact Or.inr rfl
    · simp only [List.erase_cons] at h
      rw [if_neg (by simpa using ha)] at h
      exact absurd h (by simp)

theorem leaveRoom_rooms (s : ServerState) (c rid : String) :
    (leaveRoom s c rid).rooms = s.rooms := by
  unfold leaveRoom; split <;> rfl

theorem leaveRoom_hist (s : ServerState) (c rid : String) :
    (leaveRoom s c rid).chatHistory = s.chatHistory := by
  unfold leaveRoom; split <;> rfl

theorem leaveRoom_sess (s : ServerState) (c rid : String) :
    (leaveRoom s c rid).socketToUserMap = s.socketToUserMap := by
  unfold leaveRoom; split <;> rfl

theorem cleanupRoom_rooms (rid : String) (s : ServerState) (r : String) :
    findKV (cleanupRoom rid s).rooms r =
      if rid = r ∧ findKV s.rooms rid = some [] then none else findKV s.rooms r := by
  unfold cleanupRoom
  cases hm : findKV s.rooms rid with
  | none => simp [hm]
  | some l =>
    cases l with
    | nil => simp [hm, find_del]
    | cons a t => simp [hm]

theorem cleanupRoom_hist (rid : String) (s : ServerState) (r : String) :
    findKV (cleanupRoom rid s).chatHistory r =
      if rid = r ∧ findKV s.rooms rid = some [] then none else findKV s.chatHistory r := by
  unfold cleanupRoom
  cases hm : findKV s.rooms rid with
  | none => simp [hm]
  | some l =>
    cases l with
    | nil => simp [hm, find_del]
    | cons a t => simp [hm]

theorem cleanupRoom_sess (rid : String) (s : ServerState) :
    (cleanupRoom rid s).socketToUserMap = s.socketToUserMap := by
  unfold cleanupRoom
  cases findKV s.rooms rid with
  | none => rfl
  | some l => cases l <;> rfl

theorem cleanupRoom_sockets (rid : String) (s : ServerState) :
    (cleanupRoom rid s).socketRooms = s.socketRooms := by
  unfold cleanupRoom
  cases findKV s.rooms rid with
  | none => rfl
  | some l => cases l <;> rfl

theorem vacatePrev_sess (s : ServerState) (c : String) (prev : UserInfo) :
    (vacatePrev s c prev).socketToUserMap = s.socketToUserMap := by
  unfold vacatePrev
  rw [cleanupRoom_sess]
  exact leaveRoom_sess s c prev.roomId

theorem vacatePrev_rooms (s : ServerState) (c : String) (prev : UserInfo) (r : String) :
    findKV (vacatePrev s c prev).rooms r = vacFind s.rooms prev.roomId prev.username r := by
  unfold vacatePrev
  rw [cleanupRoom_rooms]
  simp only [leaveRoom_rooms, find_upd]
  by_cases hr : prev.roomId = r
  · subst hr
    cases hm : findKV s.rooms prev.roomId with
    | none => simp [vacFind, hm]
    | some la =>
      by_cases he : la.erase prev.username = []
      · simp [vacFind, hm, he]
      · simp [vacFind, hm, he]
  · simp [vacFind, hr]

theorem vacatePrev_hist (s : ServerState) (c : String) (prev : UserInfo) (r : String) :
    findKV (vacatePrev s c prev).chatHistory r =
      if prev.roomId = r ∧ vacKills s.rooms prev.roomId prev.username then none
      else findKV s.chatHistory r := by
  unfold vacatePrev
  rw [cleanupRoom_hist]
  simp only [leaveRoom_rooms, leaveRoom_hist, find_upd, vacKills]
  simp

theorem join_fresh_sess (s : ServerState) (c roomId username : String)
    (hV : isValidUUID roomId = true) (hU : ¬ trimStr username = "")
    (hs : findKV s.socketToUserMap c = none) (c' : String) :
    findKV (stepS s (.join c roomId username)).socketToUserMap c' =
      if c = c' then some ⟨trimStr username, roomId⟩ else findKV s.socketToUserMap c' := by
  simp only [stepS, step, joinRoom, hV, hU, hs]
  simp [find_set]

theorem join_fresh_rooms (s : ServerState) (c roomId username : String)
    (hV : isValidUUID roomId = true) (hU : ¬ trimStr username = "")
    (hs : findKV s.socketToUserMap c = none) (r : String) :
    findKV (stepS s (.join c roomId username)).rooms r =
      if roomId = r then some (addUser (membersOf s roomId) (trimStr username))
      else findKV s.rooms r := by
  simp only [stepS, step, joinRoom, hV, hU, hs]
  simp [find_set, membersOf]

theorem join_fresh_hist (s : ServerState) (c roomId username : String)
    (hV : isValidUUID roomId = true) (hU : ¬ trimStr username = "")
    (hs : findKV s.socketToUserMap c = none) :
    (stepS s (.join c roomId username)).chatHistory = s.chatHistory := by
  simp [stepS, step, joinRoom, hV, hU, hs]

theorem join_prev_sess (s : ServerState) (c roomId username : String) (prev : UserInfo)
    (hV : isValidUUID roomId = true) (hU : ¬ trimStr username = "")
    (hs : findKV s.socketToUserMap c = some prev) (c' : String) :
    findKV (stepS s (.join c roomId username)).socketToUserMap c' =
      if c = c' then some ⟨trimStr username, roomId⟩ else findKV s.socketToUserMap c' := by
  simp only [stepS, step, joinRoom, hV, hU, hs]
  simp [find_set, vacatePrev_sess]

theorem join_prev_rooms (s : ServerState) (c roomId username : String) (prev : UserInfo)
    (hV : isValidUUID roomId = true) (hU : ¬ trimStr username = "")
    (hs : findKV s.socketToUserMap c = some prev) (r : String) :
    findKV (stepS s (.join c roomId username)).rooms r =
      if roomId = r then
        some (addUser ((vacFind s.rooms prev.roomId prev.username roomId).getD [])
          (trimStr username))
      else vacFind s.rooms prev.roomId prev.username r := by
  simp only [stepS, step, joinRoom, hV, hU, hs]
  simp [find_set, membersOf, vacatePrev_rooms]

theorem join_prev_hist (s : ServerState) (c roomId username : String) (prev : UserInfo)
    (hV : isValidUUID roomId = true) (hU : ¬ trimStr username = "")
    (hs : findKV s.socketToUserMap c = some prev) (r : String) :
    findKV (stepS s (.join c roomId username)).chatHistory r =
      if prev.roomId = r ∧ vacKills s.rooms prev.roomId prev.username then none
      else findKV s.chatHistory r := by
  simp only [stepS, step, joinRoom, hV, hU, hs]
  simp [vacatePrev_hist]

theorem vacFind_eq_some {m : List (String × List String)} {rid u r : String} {l : List String}
    (h : vacFind m rid u r = some l) :
    (rid = r ∧ ∃ la, findKV m rid = some la ∧ l = la.erase u ∧ la.erase u ≠ []) ∨
    (rid ≠ r ∧ findKV m r = some l) := by
  unfold vacFind at h
  by_cases hr : rid = r
  · rw [if_pos hr] at h
    cases hm : findKV m rid with
    | none => rw [hm] at h; simp at h
    | some la =>
      simp only [hm] at h
      by_cases he : la.erase u = []
      · rw [if_pos he] at h; exact absurd h (by simp)
      · rw [if_neg he] at h
        refine Or.inl ⟨hr, la, rfl, ?_, he⟩
        injection h with h
        exact h.symm
  · rw [if_neg hr] at h
    exact Or.inr ⟨hr, h⟩

theorem vacFind_eq_none {m : List (String × List String)} {rid u r : String}
    (h : vacFind m rid u r = none) :
    (rid = r ∧ (findKV m rid = none ∨ ∃ la, findKV m rid = some la ∧ la.erase u = [])) ∨
    (rid ≠ r ∧ findKV m r = none) := by
  unfold vacFind at h
  by_cases hr : rid = r
  · rw [if_pos hr] at h
    cases hm : findKV m rid with
    | none => exact Or.inl ⟨hr, Or.inl rfl⟩
    | some la =>
      simp only [hm] at h
      by_cases he : la.erase u = []
      · exact Or.inl ⟨hr, Or.inr ⟨la, rfl, he⟩⟩
      · rw [if_neg he] at h
        exact absurd h (by simp)
  · rw [if_neg hr] at h
    exact Or.inr ⟨hr, h⟩

theorem send_success_eq (s : ServerState) (c roomId message username : String)
    (timestamp : Option String) (now : String)
    (hV : isValidUUID roomId = true)
    (hM : ¬ trimStr message = "") (hU : ¬ trimStr username = "")
    (hs : findKV s.socketToUserMap c = some ⟨trimStr username, roomId⟩) :
    step s (.send c roomId message username timestamp now) =
      ({ s with chatHistory := (setKV s.chatHistory roomId
          (trimHist (histOf s roomId ++ [⟨trimStr message, trimStr username, tsOr timestamp now⟩]))) },
       [⟨(occupants s roomId).filter (fun x => x != c),
         .receiveMessage ⟨trimStr message, trimStr username, tsOr timestamp now⟩⟩]) := by
  simp only [step, sendMessage, hV, hM, hU, hs]
  simp [occupants]

theorem disc_sess (s : ServerState) (c c' : String) :
    findKV (stepS s (.disconnect c)).socketToUserMap c' =
      if c = c' then none else findKV s.socketToUserMap c' := by
  simp only [stepS, step, disconnectHandler]
  cases hi : findKV s.socketToUserMap c with
  | none => simp [hi, find_del]
  | some info =>
    cases hr : findKV s.rooms info.roomId with
    | none => simp [hi, hr, find_del]
    | some l => simp [hi, hr, find_del, cleanupRoom_sess]

theorem disc_rooms (s : ServerState) (c : String) (r : String) :
    findKV (stepS s (.disconnect c)).rooms r =
      match findKV s.socketToUserMap c with
      | none => findKV s.rooms r
      | some info => vacFind s.rooms info.roomId info.username r := by
  simp only [stepS, step, disconnectHandler]
  cases hi : findKV s.socketToUserMap c with
  | none => simp [hi]
  | some info =>
    cases hr : findKV s.rooms info.roomId with
    | none =>
      simp only [hi, hr]
      by_cases hx : info.roomId = r
      · subst hx; simp [vacFind, hr]
      · simp [vacFind, hx]
    | some l =>
      simp only [hi, hr]
      rw [show ∀ sx : ServerState, ({ sx with
          socketToUserMap := delKV sx.socketToUserMap c } : ServerState).rooms = sx.rooms
        from fun _ => rfl]
      rw [cleanupRoom_rooms]
      simp only [find_set]
      by_cases hx : info.roomId = r
      · subst hx
        by_cases he : l.erase info.username = []
        · simp [vacFind, hr, he]
        · simp [vacFind, hr, he]
      · simp [vacFind, hx]

theorem disc_hist (s : ServerState) (c : String) (r : String) :
    findKV (stepS s (.disconnect c)).chatHistory r =
      match findKV s.socketToUserMap c with
      | none => findKV s.chatHistory r
      | some info =>
        if info.roomId = r ∧ vacKills s.rooms info.roomId info.username then none
        else findKV s.chatHistory r := by
  simp only [stepS, step, disconnectHandler]
  cases hi : findKV s.socketToUserMap c with
  | none => simp [hi]
  | some info =>
    cases hr : findKV s.rooms info.roomId with
    | none =>
      simp only [hi, hr]
      simp [vacKills, hr]
    | some l =>
      simp only [hi, hr]
      rw [show ∀ sx : ServerState, ({ sx with
          socketToUserMap := delKV sx.socketToUserMap c } : ServerState).chatHistory = sx.chatHistory
        from fun _ => rfl]
      rw [cleanupRoom_hist]
      simp only [find_set, vacKills, hr]
      by_cases hx : info.roomId = r
      · subst hx
        by_cases he : l.erase info.username = []
        · simp [he]
        · simp [he]
      · simp [hx]

theorem inv_init : StInv initState := by
  constructor <;> intro r <;> simp [initState, findKV] at *

theorem inv_send (s : ServerState) (c roomId message username : String)
    (timestamp : Option String) (now : String) (hI : StInv s) :
    StInv (stepS s (.send c roomId message username timestamp now)) := by
  by_cases hV : isValidUUID roomId = true
  · by_cases hM : trimStr message = ""
    · have h : stepS s (.send c roomId message username timestamp now) = s := by
        simp [stepS, step, sendMessage, hV, hM]
      rwa [h]
    · by_cases hU : trimStr username = ""
      · have h : stepS s (.send c roomId message username timestamp now) = s := by
          simp [stepS, step, sendMessage, hV, hM, hU]
        rwa [h]
      · cases hi : findKV s.socketToUserMap c with
        | none =>
          have h : stepS s (.send c roomId message username timestamp now) = s := by
            simp [stepS, step, sendMessage, hV, hM, hU, hi]
          rwa [h]
        | some info =>
          by_cases hauth : info.roomId ≠ roomId ∨ info.username ≠ trimStr username
          · have h : stepS s (.send c roomId message username timestamp now) = s := by
              simp [stepS, step, sendMessage, hV, hM, hU, hi, hauth]
            rwa [h]
          · push_neg at hauth
            obtain ⟨h1, h2⟩ := hauth
            have hinfo : info = ⟨trimStr username, roomId⟩ := by
              cases info; simp_all
            subst hinfo
            have hstep := send_success_eq s c roomId message username timestamp now hV hM hU hi
            have h : stepS s (.send c roomId message username timestamp now) =
                { s with chatHistory := (setKV s.chatHistory roomId
                  (trimHist (histOf s roomId ++
                    [⟨trimStr message, trimStr username, tsOr timestamp now⟩]))) } := by
              rw [stepS, hstep]
            rw [h]
            refine ⟨hI.roomsNonempty, hI.roomsNodup, hI.memSess, hI.sessMem, hI.sessUnique, ?_⟩
            intro r hr
            simp only [find_set]
            obtain ⟨l, hl, _⟩ := hI.sessMem c ⟨trimStr username, roomId⟩ hi
            by_cases hx : roomId = r
            · subst hx
              rw [hr] at hl
              exact absurd hl (by simp)
            · rw [if_neg hx]
              exact hI.histAbsent r hr
  · have h : stepS s (.send c roomId message username timestamp now) = s := by
      simp [stepS, step, sendMessage, hV]
    rwa [h]

theorem inv_disc (s : ServerState) (c : String) (hI : StInv s) :
    StInv (stepS s (.disconnect c)) := by
  have hsess := disc_sess s c
  have hrooms := disc_rooms s c
  have hhist := disc_hist s c
  cases hi : findKV s.socketToUserMap c with
  | none =>
    simp only [hi] at hrooms hhist
    refine ⟨?_, ?_, ?_, ?_, ?_, ?_⟩
    · intro r l h; rw [hrooms r] at h; exact hI.roomsNonempty r l h
    · intro r l h; rw [hrooms r] at h; exact hI.roomsNodup r l h
    · intro r l u h hu
      rw [hrooms r] at h
      obtain ⟨c0, hc0⟩ := hI.memSess r l u h hu
      have hcne : ¬ c = c0 := by
        intro he; rw [← he, hi] at hc0; exact absurd hc0 (by simp)
      exact ⟨c0, by rw [hsess c0, if_neg hcne]; exact hc0⟩
    · intro c' info h
      rw [hsess c'] at h
      by_cases he : c = c'
      · rw [if_pos he] at h; exact absurd h (by simp)
      · rw [if_neg he] at h
        obtain ⟨l, hl, hmem⟩ := hI.sessMem c' info h
        exact ⟨l, by rw [hrooms]; exact hl, hmem⟩
    · intro c1 c2 info h1 h2
      rw [hsess c1] at h1
      rw [hsess c2] at h2
      by_cases he1 : c = c1
      · rw [if_pos he1] at h1; exact absurd h1 (by simp)
      · rw [if_neg he1] at h1
        by_cases he2 : c = c2
        · rw [if_pos he2] at h2; exact absurd h2 (by simp)
        · rw [if_neg he2] at h2; exact hI.sessUnique c1 c2 info h1 h2
    · intro r h
      rw [hrooms r] at h
      rw [hhist r]
      exact hI.histAbsent r h
  | some info =>
    simp only [hi] at hrooms hhist
    obtain ⟨la0, hla0, hmem0⟩ := hI.sessMem c info hi
    refine ⟨?_, ?_, ?_, ?_, ?_, ?_⟩
    · intro r l h
      rw [hrooms r] at h
      rcases vacFind_eq_some h with ⟨hr, la, hla, hl, hne⟩ | ⟨hr, hold⟩
      · rw [hl]; exact hne
      · exact hI.roomsNonempty r l hold
    · intro r l h
      rw [hrooms r] at h
      rcases vacFind_eq_some h with ⟨hr, la, hla, hl, hne⟩ | ⟨hr, hold⟩
      · rw [hl]; exact (hI.roomsNodup _ la hla).erase _
      · exact hI.roomsNodup r l hold
    · intro r l u h hu
      rw [hrooms r] at h
      rcases vacFind_eq_some h with ⟨hr, la, hla, hl, hne⟩ | ⟨hr, hold⟩
      · subst hr
        rw [hl] at hu
        obtain ⟨hne_u, hu_la⟩ := (hI.roomsNodup _ la hla).mem_erase_iff.mp hu
        obtain ⟨c0, hc0⟩ := hI.memSess _ la u hla hu_la
        have hcne : ¬ c = c0 := by
          intro he
          rw [← he, hi] at hc0
          have hinfo := Option.some.inj hc0
          exact hne_u (by rw [hinfo])
        exact ⟨c0, by rw [hsess c0, if_neg hcne]; exact hc0⟩
      · obtain ⟨c0, hc0⟩ := hI.memSess r l u hold hu
        have hcne : ¬ c = c0 := by
          intro he
          rw [← he, hi] at hc0
          have hinfo := Option.some.inj hc0
          exact hr (by rw [hinfo])
        exact ⟨c0, by rw [hsess c0, if_neg hcne]; exact hc0⟩
    · intro c' info' h
      rw [hsess c'] at h
      by_cases he : c = c'
      · rw [if_pos he] at h; exact absurd h (by simp)
      · rw [if_neg he] at h
        obtain ⟨l', hl', hm'⟩ := hI.sessMem c' info' h
        by_cases hr : info.roomId = info'.roomId
        · have hll : la0 = l' := by
            rw [← hr] at hl'
            rw [hla0] at hl'
            exact Option.some.inj hl'
          have hneu : info'.username ≠ info.username := by
            intro hequ
            have heq : info' = info := by
              cases info; cases info'; simp_all
            rw [heq] at h
            exact he (hI.sessUnique c c' info hi h)
          have hmem_er : info'.username ∈ la0.erase info.username :=
            (hI.roomsNodup _ la0 hla0).mem_erase_iff.mpr ⟨hneu, by rw [hll]; exact hm'⟩
          have hern : la0.erase info.username ≠ [] := by
            intro hemp
            rw [hemp] at hmem_er
            exact absurd hmem_er (List.not_mem_nil _)
          refine ⟨la0.erase info.username, ?_, hmem_er⟩
          rw [hrooms info'.roomId]
          unfold vacFind
          rw [if_pos hr]
          simp only [hla0]
          rw [if_neg hern]
        · refine ⟨l', ?_, hm'⟩
          rw [hrooms info'.roomId]
          unfold vacFind
          rw [if_neg hr]
          exact hl'
    · intro c1 c2 info' h1 h2
      rw [hsess c1] at h1
      rw [hsess c2] at h2
      by_cases he1 : c = c1
      · rw [if_pos he1] at h1; exact absurd h1 (by simp)
      · rw [if_neg he1] at h1
        by_cases he2 : c = c2
        · rw [if_pos he2] at h2; exact absurd h2 (by simp)
        · rw [if_neg he2] at h2; exact hI.sessUnique c1 c2 info' h1 h2
    · intro r h
      rw [hrooms r] at h
      rw [hhist r]
      rcases vacFind_eq_none h with ⟨hr, hcases⟩ | ⟨hr, hold⟩
      · rcases hcases with hnone | ⟨la, hla, he⟩
        · have hkills : ¬ vacKills s.rooms info.roomId info.username := by
            unfold vacKills
            rw [hnone]
            simp
          rw [if_neg (fun hc => hkills hc.2)]
          exact hI.histAbsent r (by rw [← hr]; exact hnone)
        · rw [if_pos ⟨hr, by unfold vacKills; rw [hla]; simp [he]⟩]
      · rw [if_neg (fun hc => hr hc.1)]
        exact hI.histAbsent r hold

theorem inv_join (s : ServerState) (c roomId username : String) (hI : StInv s)
    (hnd : ∀ c', c' ≠ c →
      findKV s.socketToUserMap c' ≠ some ⟨trimStr username, roomId⟩) :
    StInv (stepS s (.join c roomId username)) := by
  by_cases hV : isValidUUID roomId = true
  · by_cases hU : trimStr username = ""
    · have h : stepS s (.join c roomId username) = s := by
        simp [stepS, step, joinRoom, hV, hU]
      rwa [h]
    · cases hi : findKV s.socketToUserMap c with
      | none =>
        have hsess := fun c' => join_fresh_sess s c roomId username hV hU hi c'
        have hrooms := fun r => join_fresh_rooms s c roomId username hV hU hi r
        have hhist := join_fresh_hist s c roomId username hV hU hi
        have hmembers_nodup : (membersOf s roomId).Nodup := by
          unfold membersOf
          cases hm : findKV s.rooms roomId with
          | none => simp
          | some la => simpa using hI.roomsNodup _ la hm
        refine ⟨?_, ?_, ?_, ?_, ?_, ?_⟩
        · intro r l h
          rw [hrooms r] at h
          by_cases hx : roomId = r
          · rw [if_pos hx] at h
            rw [← Option.some.inj h]
            exact addUser_ne_nil _ _
          · rw [if_neg hx] at h; exact hI.roomsNonempty r l h
        · intro r l h
          rw [hrooms r] at h
          by_cases hx : roomId = r
          · rw [if_pos hx] at h
            rw [← Option.some.inj h]
            exact addUser_nodup _ _ hmembers_nodup
          · rw [if_neg hx] at h; exact hI.roomsNodup r l h
        · intro r l u h hu
          rw [hrooms r] at h
          by_cases hx : roomId = r
          · subst hx
            rw [if_pos rfl] at h
            rw [← Option.some.inj h] at hu
            rcases (mem_addUser _ _ _).mp hu with rfl | hu_old
            · exact ⟨c, by rw [hsess c, if_pos rfl]⟩
            · unfold membersOf at hu_old
              cases hm : findKV s.rooms roomId with
              | none => rw [hm] at hu_old; simp at hu_old
              | some la =>
                rw [hm] at hu_old
                simp only [Option.getD_some] at hu_old
                obtain ⟨c0, hc0⟩ := hI.memSess _ la u hm hu_old
                have hcne : ¬ c = c0 := by
                  intro he; rw [← he, hi] at hc0; exact absurd hc0 (by simp)
                exact ⟨c0, by rw [hsess c0, if_neg hcne]; exact hc0⟩
          · rw [if_neg hx] at h
            obtain ⟨c0, hc0⟩ := hI.memSess r l u h hu
            have hcne : ¬ c = c0 := by
              intro he; rw [← he, hi] at hc0; exact absurd hc0 (by simp)
            exact ⟨c0, by rw [hsess c0, if_neg hcne]; exact hc0⟩
        · intro c' info h
          rw [hsess c'] at h
          by_cases he : c = c'
          · rw [if_pos he] at h
            have hinfo : info = ⟨trimStr username, roomId⟩ := (Option.some.inj h).symm
            subst hinfo
            refine ⟨addUser (membersOf s roomId) (trimStr username), ?_,
              (mem_addUser _ _ _).mpr (Or.inl rfl)⟩
            rw [show (⟨trimStr username, roomId⟩ : UserInfo).roomId = roomId from rfl]
            rw [hrooms roomId, if_pos rfl]
          · rw [if_neg he] at h
            obtain ⟨l, hl, hm⟩ := hI.sessMem c' info h
            by_cases hx : roomId = info.roomId
            · refine ⟨addUser (membersOf s roomId) (trimStr username), ?_, ?_⟩
              · rw [hrooms info.roomId, if_pos hx]
              · refine (mem_addUser _ _ _).mpr (Or.inr ?_)
                unfold membersOf
                rw [hx, hl]
                simpa using hm
            · refine ⟨l, ?_, hm⟩
              rw [hrooms info.roomId, if_neg hx]
              exact hl
        · intro c1 c2 info h1 h2
          rw [hsess c1] at h1
          rw [hsess c2] at h2
          by_cases he1 : c = c1
          · by_cases he2 : c = c2
            · rw [← he1, ← he2]
            · rw [if_pos he1] at h1
              rw [if_neg he2] at h2
              have hinfo : info = ⟨trimStr username, roomId⟩ := (Option.some.inj h1).symm
              rw [hinfo] at h2
              exact absurd h2 (hnd c2 (fun hc => he2 hc.symm))
          · by_cases he2 : c = c2
            · rw [if_pos he2] at h2
              rw [if_neg he1] at h1
              have hinfo : info = ⟨trimStr username, roomId⟩ := (Option.some.inj h2).symm
              rw [hinfo] at h1
              exact absurd h1 (hnd c1 (fun hc => he1 hc.symm))
            · rw [if_neg he1] at h1
              rw [if_neg he2] at h2
              exact hI.sessUnique c1 c2 info h1 h2
        · intro r h
          rw [hrooms r] at h
          by_cases hx : roomId = r
          · rw [if_pos hx] at h; exact absurd h (by simp)
          · rw [if_neg hx] at h
            rw [hhist]
            exact hI.histAbsent r h
      | some prev =>
        have hsess := fun c' => join_prev_sess s c roomId username prev hV hU hi c'
        have hrooms := fun r => join_prev_rooms s c roomId username prev hV hU hi r
        have hhist := fun r => join_prev_hist s c roomId username prev hV hU hi r
        obtain ⟨la0, hla0, hmem0⟩ := hI.sessMem c prev hi
        have hvf_nonempty : ∀ r l,
            vacFind s.rooms prev.roomId prev.username r = some l → l ≠ [] := by
          intro r l h
          rcases vacFind_eq_some h with ⟨hr, la, hla, hl, hne⟩ | ⟨hr, hold⟩
          · rw [hl]; exact hne
          · exact hI.roomsNonempty r l hold
        have hvf_nodup : ∀ r l,
            vacFind s.rooms prev.roomId prev.username r = some l → l.Nodup := by
          intro r l h
          rcases vacFind_eq_some h with ⟨hr, la, hla, hl, hne⟩ | ⟨hr, hold⟩
          · rw [hl]; exact (hI.roomsNodup _ la hla).erase _
          · exact hI.roomsNodup r l hold
        have hvf_mem : ∀ r l u,
            vacFind s.rooms prev.roomId prev.username r = some l → u ∈ l →
            ∃ c0, ¬ c = c0 ∧ findKV s.socketToUserMap c0 = some ⟨u, r⟩ := by
          intro r l u h hu
          rcases vacFind_eq_some h with ⟨hr, la, hla, hl, hne⟩ | ⟨hr, hold⟩
          · subst hr
            rw [hl] at hu
            obtain ⟨hne_u, hu_la⟩ := (hI.roomsNodup _ la hla).mem_erase_iff.mp hu
            obtain ⟨c0, hc0⟩ := hI.memSess _ la u hla hu_la
            refine ⟨c0, ?_, hc0⟩
            intro he
            rw [← he, hi] at hc0
            exact hne_u (by rw [Option.some.inj hc0])
          · obtain ⟨c0, hc0⟩ := hI.memSess r l u hold hu
            refine ⟨c0, ?_, hc0⟩
            intro he
            rw [← he, hi] at hc0
            exact hr (by rw [Option.some.inj hc0])
        have hvf_sessMem : ∀ c' info', ¬ c = c' →
            findKV s.socketToUserMap c' = some info' →
            ∃ l, vacFind s.rooms prev.roomId prev.username info'.roomId = some l ∧
              info'.username ∈ l := by
          intro c' info' he h
          obtain ⟨l', hl', hm'⟩ := hI.sessMem c' info' h
          by_cases hy : prev.roomId = info'.roomId
          · have hll : la0 = l' := by
              rw [← hy] at hl'
              rw [hla0] at hl'
              exact Option.some.inj hl'
            have hneu : info'.username ≠ prev.username := by
              intro hequ
              have heq : info' = prev := by
                cases prev; cases info'; simp_all
              rw [heq] at h
              exact he (hI.sessUnique c c' prev hi h)
            have hmem_er : info'.username ∈ la0.erase prev.username :=
              (hI.roomsNodup _ la0 hla0).mem_erase_iff.mpr ⟨hneu, by rw [hll]; exact hm'⟩
            have hern : la0.erase prev.username ≠ [] := by
              intro hemp
              rw [hemp] at hmem_er
              exact absurd hmem_er (List.not_mem_nil _)
            refine ⟨la0.erase prev.username, ?_, hmem_er⟩
            unfold vacFind
            rw [if_pos hy]
            simp only [hla0]
            rw [if_neg hern]
          · refine ⟨l', ?_, hm'⟩
            unfold vacFind
            rw [if_neg hy]
            exact hl'
        have hvf_getD_nodup :
            ((vacFind s.rooms prev.roomId prev.username roomId).getD []).Nodup := by
          cases hm : vacFind s.rooms prev.roomId prev.username roomId with
          | none => simp
          | some l => simpa using hvf_nodup roomId l hm
        refine ⟨?_, ?_, ?_, ?_, ?_, ?_⟩
        · intro r l h
          rw [hrooms r] at h
          by_cases hx : roomId = r
          · rw [if_pos hx] at h
            rw [← Option.some.inj h]
            exact addUser_ne_nil _ _
          · rw [if_neg hx] at h; exact hvf_nonempty r l h
        · intro r l h
          rw [hrooms r] at h
          by_cases hx : roomId = r
          · rw [if_pos hx] at h
            rw [← Option.some.inj h]
            exact addUser_nodup _ _ hvf_getD_nodup
          · rw [if_neg hx] at h; exact hvf_nodup r l h
        · intro r l u h hu
          rw [hrooms r] at h
          by_cases hx : roomId = r
          · subst hx
            rw [if_pos rfl] at h
            rw [← Option.some.inj h] at hu
            rcases (mem_addUser _ _ _).mp hu with rfl | hu_old
            · exact ⟨c, by rw [hsess c, if_pos rfl]⟩
            · cases hm : vacFind s.rooms prev.roomId prev.username roomId with
              | none => rw [hm] at hu_old; simp at hu_old
              | some lv =>
                rw [hm] at hu_old
                simp only [Option.getD_some] at hu_old
                obtain ⟨c0, hcne, hc0⟩ := hvf_mem roomId lv u hm hu_old
                exact ⟨c0, by rw [hsess c0, if_neg hcne]; exact hc0⟩
          · rw [if_neg hx] at h
            obtain ⟨c0, hcne, hc0⟩ := hvf_mem r l u h hu
            exact ⟨c0, by rw [hsess c0, if_neg hcne]; exact hc0⟩
        · intro c' info h
          rw [hsess c'] at h
          by_cases he : c = c'
          · rw [if_pos he] at h
            have hinfo : info = ⟨trimStr username, roomId⟩ := (Option.some.inj h).symm
            subst hinfo
            refine ⟨addUser ((vacFind s.rooms prev.roomId prev.username roomId).getD [])
              (trimStr username), ?_, (mem_addUser _ _ _).mpr (Or.inl rfl)⟩
            rw [show (⟨trimStr username, roomId⟩ : UserInfo).roomId = roomId from rfl]
            rw [hrooms roomId, if_pos rfl]
          · rw [if_neg he] at h
            obtain ⟨lv, hlv, hmv⟩ := hvf_sessMem c' info he h
            by_cases hx : roomId = info.roomId
            · refine ⟨addUser ((vacFind s.rooms prev.roomId prev.username roomId).getD [])
                (trimStr username), ?_, ?_⟩
              · rw [hrooms info.roomId, if_pos hx]
              · refine (mem_addUser _ _ _).mpr (Or.inr ?_)
                rw [hx, hlv]
                simpa using hmv
            · refine ⟨lv, ?_, hmv⟩
              rw [hrooms info.roomId, if_neg hx]
              exact hlv
        · intro c1 c2 info h1 h2
          rw [hsess c1] at h1
          rw [hsess c2] at h2
          by_cases he1 : c = c1
          · by_cases he2 : c = c2
            · rw [← he1, ← he2]
            · rw [if_pos he1] at h1
              rw [if_neg he2] at h2
              have hinfo : info = ⟨trimStr username, roomId⟩ := (Option.some.inj h1).symm
              rw [hinfo] at h2
              exact absurd h2 (hnd c2 (fun hc => he2 hc.symm))
          · by_cases he2 : c = c2
            · rw [if_pos he2] at h2
              rw [if_neg he1] at h1
              have hinfo : info = ⟨trimStr username, roomId⟩ := (Option.some.inj h2).symm
              rw [hinfo] at h1
              exact absurd h1 (hnd c1 (fun hc => he1 hc.symm))
            · rw [if_neg he1] at h1
              rw [if_neg he2] at h2
              exact hI.sessUnique c1 c2 info h1 h2
        · intro r h
          rw [hrooms r] at h
          by_cases hx : roomId = r
          · rw [if_pos hx] at h; exact absurd h (by simp)
          · rw [if_neg hx] at h
            rw [hhist r]
            rcases vacFind_eq_none h with ⟨hr, hcases⟩ | ⟨hr, hold⟩
            · rcases hcases with hnone | ⟨la, hla, he⟩
              · have hkills : ¬ vacKills s.rooms prev.roomId prev.username := by
                  unfold vacKills
                  rw [hnone]
                  simp
                rw [if_neg (fun hc => hkills hc.2)]
                exact hI.histAbsent r (by rw [← hr]; exact hnone)
              · rw [if_pos ⟨hr, by unfold vacKills; rw [hla]; simp [he]⟩]
            · rw [if_neg (fun hc => hr hc.1)]
              exact hI.histAbsent r hold
  · have h : stepS s (.join c roomId username) = s := by
      simp [stepS, step, joinRoom, hV]
    rwa [h]

/-- Every duplicate-free-reachable state satisfies the consistency
invariant. -/
theorem reachableG_inv (s : ServerState) (h : ReachableG s) : StInv s := by
  induction h with
  | init => exact inv_init
  | join s c roomId username _ hnd ih => exact inv_join s c roomId username ih hnd
  | send s c roomId message username timestamp now _ ih =>
    exact inv_send s c roomId message username timestamp now ih
  | disconnect s c _ ih => exact inv_disc s c ih

/-- C1 (amended): for every sequence of join, send and disconnect
events in which no successful join binds a (username, room) pair
already held by another live connection's Session, a username appears
in a room's member set iff some live connection's Session currently
names that (username, room) pair. -/
theorem C1_membership_consistency (s : ServerState) (r u : String)
    (h : ReachableG s) :
    u ∈ membersOf s r ↔ ∃ c, findKV s.socketToUserMap c = some ⟨u, r⟩ := by
  have hI := reachableG_inv s h
  constructor
  · intro hu
    unfold membersOf at hu
    cases hm : findKV s.rooms r with
    | none => rw [hm] at hu; simp at hu
    | some l =>
      rw [hm] at hu
      simp only [Option.getD_some] at hu
      exact hI.memSess r l u hm hu
  · rintro ⟨c, hc⟩
    obtain ⟨l, hl, hm⟩ := hI.sessMem c ⟨u, r⟩ hc
    unfold membersOf
    rw [show (⟨u, r⟩ : UserInfo).roomId = r from rfl] at hl
    rw [hl]
    simpa using hm

/-- C1 counterexample: after join(c1,R,alice), join(c2,R,alice),
disconnect(c1) — two live connections joined room R under the same
username — c2's Session still names (alice, R) while alice is no
longer in R's member set, so the claimed iff fails as stated. -/
theorem C1_cex :
    ¬ ("alice" ∈ membersOf cexState1 U1 ↔
        ∃ c, findKV cexState1.socketToUserMap c = some ⟨"alice", U1⟩) := by
  intro hiff
  exact absurd (hiff.mpr ⟨"c2", by decide⟩) (by decide)

/-- C1 witness: the amended membership-consistency iff, instantiated at
the concrete reachable state after one valid join. -/
theorem C1_witness :
    ReachableG wState1 ∧
      ("alice" ∈ membersOf wState1 U1 ↔
        ∃ c, findKV wState1.socketToUserMap c = some ⟨"alice", U1⟩) := by
  have hreach : ReachableG wState1 :=
    ReachableG.join initState "c1" U1 "alice" ReachableG.init
      (by intro c' _; simp [initState, findKV])
  exact ⟨hreach, C1_membership_consistency wState1 U1 "alice" hreach⟩

/-- C2 (amended): in every state reachable by event sequences in which
no successful join duplicates an already-bound (username, room) pair, a
room-id is in the Room Registry iff its member set is nonempty, and
absence from the Registry implies its history is absent.  (Without the
duplicate-free restriction, a send from a connection whose Session
names an unregistered room recreates that room's history entry.) -/
theorem C2_room_lifecycle (s : ServerState) (r : String) (h : ReachableG s) :
    ((findKV s.rooms r).isSome ↔ membersOf s r ≠ []) ∧
      (findKV s.rooms r = none → findKV s.chatHistory r = none) := by
  have hI := reachableG_inv s h
  refine ⟨⟨?_, ?_⟩, hI.histAbsent r⟩
  · intro hsome
    cases hm : findKV s.rooms r with
    | none => rw [hm] at hsome; simp at hsome
    | some l =>
      unfold membersOf
      rw [hm]
      simpa using hI.roomsNonempty r l hm
  · intro hne
    cases hm : findKV s.rooms r with
    | none =>
      unfold membersOf at hne
      rw [hm] at hne
      simp at hne
    | some l => simp [hm]

/-- C2 counterexample: after join(c1,R,alice), join(c2,R,alice),
disconnect(c1), send(c2,R,"hi","alice"), room R is absent from the
Registry yet its history holds the freshly stored message, refuting
"absence of a room-id from the Registry implies its history is also
absent" for the claimed send-from-stale-Session case. -/
theorem C2_cex :
    ¬ (findKV cexState2.rooms U1 = none → findKV cexState2.chatHistory U1 = none) := by
  decide

/-- C2 witness: the amended registry/history invariant instantiated at
the concrete reachable state after one valid join. -/
theorem C2_witness :
    ReachableG wState1 ∧
      (((findKV wState1.rooms U1).isSome ↔ membersOf wState1 U1 ≠ []) ∧
        (findKV wState1.rooms U1 = none → findKV wState1.chatHistory U1 = none)) := by
  have hreach : ReachableG wState1 :=
    ReachableG.join initState "c1" U1 "alice" ReachableG.init
      (by intro c' _; simp [initState, findKV])
  exact ⟨hreach, C2_room_lifecycle wState1 U1 hreach⟩

theorem trimHist_eq_drop (l : List Message) :
    trimHist l = l.drop (l.length - 100) := by
  unfold trimHist
  by_cases h : 100 < l.length
  · rw [if_pos h]
  · rw [if_neg h]
    have h0 : l.length - 100 = 0 := by omega
    rw [h0, List.drop_zero]

theorem trimHist_length_le (l : List Message) : (trimHist l).length ≤ 100 := by
  rw [trimHist_eq_drop, List.length_drop]
  omega

theorem drop_append_ge (a b : List Message) (n : Nat) (h : n ≤ b.length) :
    (a ++ b).drop ((a ++ b).length - n) = b.drop (b.length - n) := by
  have h1 : (a ++ b).length - n = a.length + (b.length - n) := by
    rw [List.length_append]; omega
  rw [h1]
  rw [show (a ++ b).drop (a.length + (b.length - n)) =
      ((a ++ b).drop a.length).drop (b.length - n) from by rw [List.drop_drop]]
  rw [List.drop_left]

theorem drop_window_append (x rest : List Message) (hx : 100 ≤ x.length) :
    (x.drop (x.length - 100) ++ rest).drop
        ((x.drop (x.length - 100) ++ rest).length - 100) =
      (x ++ rest).drop ((x ++ rest).length - 100) := by
  have hy : (x.drop (x.length - 100)).length = 100 := by
    rw [List.length_drop]; omega
  have h1 : (x.drop (x.length - 100) ++ rest).length - 100 = rest.length := by
    rw [List.length_append, hy]; omega
  have h2 : (x ++ rest).length - 100 = (x.length - 100) + rest.length := by
    rw [List.length_append]; omega
  rw [h1, h2]
  rw [show (x ++ rest).drop ((x.length - 100) + rest.length) =
      ((x ++ rest).drop (x.length - 100)).drop rest.length from by
    rw [List.drop_drop]]
  rw [List.drop_append_of_le_length (show x.length - 100 ≤ x.length by omega)]

theorem foldl_trimHist (msgs : List Message) : ∀ h : List Message, h.length ≤ 100 →
    msgs.foldl (fun acc m => trimHist (acc ++ [m])) h =
      (h ++ msgs).drop ((h ++ msgs).length - 100) := by
  induction msgs with
  | nil =>
    intro h hlen
    simp only [List.foldl_nil, List.append_nil]
    have h0 : h.length - 100 = 0 := by omega
    rw [h0, List.drop_zero]
  | cons m rest ih =>
    intro h hlen
    simp only [List.foldl_cons]
    rw [ih (trimHist (h ++ [m])) (trimHist_length_le _)]
    rw [trimHist_eq_drop]
    have hassoc : (h ++ [m]) ++ rest = h ++ m :: rest := by simp
    by_cases h100 : 100 ≤ (h ++ [m]).length
    · rw [drop_window_append (h ++ [m]) rest h100, hassoc]
    · have h0 : (h ++ [m]).length - 100 = 0 := by omega
      rw [h0, List.drop_zero, hassoc]

theorem runS_sendTrace (c R uname : String)
    (items : List (String × Option String × String)) :
    ∀ s : ServerState,
    isValidUUID R = true → ¬ trimStr uname = "" →
    findKV s.socketToUserMap c = some ⟨trimStr uname, R⟩ →
    (∀ it ∈ items, ¬ trimStr it.1 = "") →
    histOf (runS s (sendTrace c R uname items)) R =
      (sentMsgs uname items).foldl (fun acc m => trimHist (acc ++ [m])) (histOf s R) := by
  induction items with
  | nil =>
    intro s _ _ _ _
    simp [sendTrace, sentMsgs, runS]
  | cons it rest ih =>
    intro s hV hU hsess htexts
    have hM : ¬ trimStr it.1 = "" := htexts it (by simp)
    have hstep := send_success_eq s c R it.1 uname it.2.1 it.2.2 hV hM hU hsess
    have hrun : runS s (sendTrace c R uname (it :: rest)) =
        runS (stepS s (.send c R it.1 uname it.2.1 it.2.2)) (sendTrace c R uname rest) := by
      simp [sendTrace, runS]
    rw [hrun]
    have hs' : stepS s (.send c R it.1 uname it.2.1 it.2.2) =
        { s with chatHistory := (setKV s.chatHistory R
          (trimHist (histOf s R ++ [⟨trimStr it.1, trimStr uname, tsOr it.2.1 it.2.2⟩]))) } := by
      rw [stepS, hstep]
    rw [hs']
    rw [ih ({ s with chatHistory := (setKV s.chatHistory R
        (trimHist (histOf s R ++ [⟨trimStr it.1, trimStr uname, tsOr it.2.1 it.2.2⟩]))) })
      hV hU hsess (fun x hx => htexts x (by simp [hx]))]
    have hh : histOf ({ s with chatHistory := (setKV s.chatHistory R
        (trimHist (histOf s R ++ [⟨trimStr it.1, trimStr uname, tsOr it.2.1 it.2.2⟩]))) }) R =
        trimHist (histOf s R ++ [⟨trimStr it.1, trimStr uname, tsOr it.2.1 it.2.2⟩]) := by
      unfold histOf
      simp [find_set]
    rw [hh]
    simp [sentMsgs]

/-- C3: for every room and every N > 100, after N successful sends to
the room the history snapshot is exactly the last 100 messages in
arrival order; in particular after 101 sequential sends the snapshot
has length 100 and its first element is the 2nd message sent. -/
theorem C3_history_bound (s : ServerState) (c R uname : String)
    (items : List (String × Option String × String))
    (hV : isValidUUID R = true) (hU : ¬ trimStr uname = "")
    (hsess : findKV s.socketToUserMap c = some ⟨trimStr uname, R⟩)
    (htexts : ∀ it ∈ items, ¬ trimStr it.1 = "")
    (hinit : (histOf s R).length ≤ 100)
    (hN : 100 < items.length) :
    histOf (runS s (sendTrace c R uname items)) R =
        (sentMsgs uname items).drop (items.length - 100) ∧
      (items.length = 101 →
        (histOf (runS s (sendTrace c R uname items)) R).length = 100 ∧
        (histOf (runS s (sendTrace c R uname items)) R).head? =
          (sentMsgs uname items)[1]?) := by
  have hlen_msgs : (sentMsgs uname items).length = items.length := by
    simp [sentMsgs]
  have hmain : histOf (runS s (sendTrace c R uname items)) R =
      (sentMsgs uname items).drop (items.length - 100) := by
    rw [runS_sendTrace c R uname items s hV hU hsess htexts]
    rw [foldl_trimHist _ _ hinit]
    rw [drop_append_ge _ _ 100 (by omega)]
    rw [hlen_msgs]
  refine ⟨hmain, fun h101 => ⟨?_, ?_⟩⟩
  · rw [hmain, List.length_drop, hlen_msgs, h101]
  · rw [hmain, h101]
    rw [show 101 - 100 = 1 from rfl]
    rw [List.head?_drop]

/-- C3 witness: the history bound applied to a concrete 101-send run. -/
theorem C3_witness :
    isValidUUID U1 = true ∧ (¬ trimStr "alice" = "") ∧
      findKV wState3.socketToUserMap "c1" = some ⟨trimStr "alice", U1⟩ ∧
      (∀ it ∈ wItems, ¬ trimStr it.1 = "") ∧
      (histOf wState3 U1).length ≤ 100 ∧ 100 < wItems.length ∧
      (histOf (runS wState3 (sendTrace "c1" U1 "alice" wItems)) U1 =
          (sentMsgs "alice" wItems).drop (wItems.length - 100) ∧
        (wItems.length = 101 →
          (histOf (runS wState3 (sendTrace "c1" U1 "alice" wItems)) U1).length = 100 ∧
          (histOf (runS wState3 (sendTrace "c1" U1 "alice" wItems)) U1).head? =
            (sentMsgs "alice" wItems)[1]?)) := by
  have htexts : ∀ it ∈ wItems, ¬ trimStr it.1 = "" := by
    intro it hit
    rw [List.eq_of_mem_replicate hit]
    decide
  refine ⟨by decide, by decide, by decide, htexts, by decide, by decide, ?_⟩
  exact C3_history_bound wState3 "c1" U1 "alice" wItems (by decide) (by decide) (by decide)
    htexts (by decide) (by decide)

/-- C4 (amended): for every send-message event whose text is nonempty
after trimming and where no Session exists for the connection, or the
Session's room-id differs from the claimed roomId, or the Session's
username differs from the trimmed claimed username, the handler leaves
the whole state unchanged and emits exactly one room-error, to the
originating connection only.  (With an empty-after-trim text the
authorization check is never reached, and whether anything is emitted
is decided by the roomId check alone.) -/
theorem C4_unauthorized_send (s : ServerState) (c roomId message username : String)
    (timestamp : Option String) (now : String)
    (hM : ¬ trimStr message = "")
    (hauth : findKV s.socketToUserMap c = none ∨
      ∃ info, findKV s.socketToUserMap c = some info ∧
        (info.roomId ≠ roomId ∨ info.username ≠ trimStr username)) :
    (step s (.send c roomId message username timestamp now)).1 = s ∧
      ∃ reason, (step s (.send c roomId message username timestamp now)).2 =
        [⟨[c], .roomError reason⟩] := by
  by_cases hV : isValidUUID roomId = true
  · by_cases hU : trimStr username = ""
    · refine ⟨by simp [step, sendMessage, hV, hM, hU], "Username is required", ?_⟩
      simp [step, sendMessage, hV, hM, hU]
    · rcases hauth with hnone | ⟨info, hinfo, hor⟩
      · refine ⟨by simp [step, sendMessage, hV, hM, hU, hnone],
          "Unauthorized message", ?_⟩
        simp [step, sendMessage, hV, hM, hU, hnone]
      · refine ⟨by simp [step, sendMessage, hV, hM, hU, hinfo, hor],
          "Unauthorized message", ?_⟩
        simp [step, sendMessage, hV, hM, hU, hinfo, hor]
  · refine ⟨by simp [step, sendMessage, hV], "Invalid room ID", ?_⟩
    simp [step, sendMessage, hV]

/-- C4 counterexample: a send-message event satisfying the claimed
authorization-failure condition (no Session exists), with a valid
claimed roomId and a text that is empty after trimming, is dropped with
no emission at all — in particular no room-error reaches the
originating connection, refuting the claim as stated. -/
theorem C4_cex :
    findKV initState.socketToUserMap "c1" = none ∧
      (step initState (.send "c1" U1 "   " "alice" none "12:00")).2 = [] := by
  decide

/-- C4 witness: the amended unauthorized-send behaviour at a concrete
sessionless connection with nonempty text. -/
theorem C4_witness :
    (¬ trimStr "hi" = "") ∧ findKV initState.socketToUserMap "c1" = none ∧
      ((step initState (.send "c1" U1 "hi" "alice" none "12:00")).1 = initState ∧
        ∃ reason, (step initState (.send "c1" U1 "hi" "alice" none "12:00")).2 =
          [⟨["c1"], .roomError reason⟩]) :=
  ⟨by decide, by decide,
    C4_unauthorized_send initState "c1" U1 "hi" "alice" none "12:00" (by decide)
      (Or.inl (by decide))⟩

/-- C5 (amended): for every send-message event whose claimed roomId is
a valid identifier and whose text is empty after trimming, the event is
dropped silently — no state change and no emission of any kind —
regardless of the username, timestamp, or Session state.  (With an
invalid roomId the handler instead emits room-error before the text is
examined.) -/
theorem C5_silent_empty_text (s : ServerState) (c roomId message username : String)
    (timestamp : Option String) (now : String)
    (hV : isValidUUID roomId = true) (hM : trimStr message = "") :
    step s (.send c roomId message username timestamp now) = (s, []) := by
  simp [step, sendMessage, hV, hM]

/-- C5 counterexample: an empty-after-trim message is not dropped
silently when the claimed roomId is invalid — the roomId check runs
first and a room-error is emitted to the sender, refuting the claim's
"regardless of the other fields" part. -/
theorem C5_cex :
    trimStr "  " = "" ∧
      (step initState (.send "c1" "not-a-uuid" "  " "alice" none "12:00")).2 =
        [⟨["c1"], .roomError "Invalid room ID"⟩] := by
  decide

/-- C5 witness: the amended silent-drop behaviour at a concrete
valid-room, empty-text send. -/
theorem C5_witness :
    isValidUUID U1 = true ∧ trimStr "   " = "" ∧
      step initState (.send "c1" U1 "   " "alice" none "12:00") = (initState, []) :=
  ⟨by decide, by decide,
    C5_silent_empty_text initState "c1" U1 "   " "alice" none "12:00"
      (by decide) (by decide)⟩

/-- C7: for every successful send-message, the receive-message
broadcast is a single emission whose recipient set contains a
connection iff that connection occupies the room and is not the sender;
in particular the sender never appears in the recipient set of its own
message. -/
theorem C7_no_self_echo (s : ServerState) (c roomId message username : String)
    (timestamp : Option String) (now : String)
    (hV : isValidUUID roomId = true)
    (hM : ¬ trimStr message = "") (hU : ¬ trimStr username = "")
    (hsess : findKV s.socketToUserMap c = some ⟨trimStr username, roomId⟩) :
    ∃ recips m,
      (step s (.send c roomId message username timestamp now)).2 =
          [⟨recips, .receiveMessage m⟩] ∧
        c ∉ recips ∧
        (∀ x, x ∈ recips ↔ (x ∈ occupants s roomId ∧ x ≠ c)) := by
  refine ⟨(occupants s roomId).filter (fun x => x != c),
    ⟨trimStr message, trimStr username, tsOr timestamp now⟩, ?_, ?_, ?_⟩
  · rw [send_success_eq s c roomId message username timestamp now hV hM hU hsess]
  · intro hc
    rw [List.mem_filter] at hc
    exact absurd hc.2 (by simp)
  · intro x
    rw [List.mem_filter]
    simp [bne_iff_ne]

/-- C7 witness: no-self-echo at a concrete two-member room. -/
theorem C7_witness :
    isValidUUID U1 = true ∧ (¬ trimStr "hi" = "") ∧ (¬ trimStr "alice" = "") ∧
      findKV wState7.socketToUserMap "c1" = some ⟨trimStr "alice", U1⟩ ∧
      (∃ recips m,
        (step wState7 (.send "c1" U1 "hi" "alice" (some "t") "n")).2 =
            [⟨recips, .receiveMessage m⟩] ∧
          "c1" ∉ recips ∧
          (∀ x, x ∈ recips ↔ (x ∈ occupants wState7 U1 ∧ x ≠ "c1"))) :=
  ⟨by decide, by decide, by decide, by decide,
    C7_no_self_echo wState7 "c1" U1 "hi" "alice" (some "t") "n" (by decide) (by decide)
      (by decide) (by decide)⟩

/-- C8 (amended): for every successful send-message, the stored and
broadcast Message carries the trimmed text and trimmed username; its
timestamp is the client-provided string whenever that string is
nonempty, and the server wall-clock string is used both when the client
omitted the timestamp and when the client sent the empty string (the
source computes `timestamp || fallback`, and the empty string is falsy). -/
theorem C8_message_fields (s : ServerState) (c roomId message username : String)
    (timestamp : Option String) (now : String)
    (hV : isValidUUID roomId = true)
    (hM : ¬ trimStr message = "") (hU : ¬ trimStr username = "")
    (hsess : findKV s.socketToUserMap c = some ⟨trimStr username, roomId⟩) :
    ∃ recips,
      step s (.send c roomId message username timestamp now) =
        ({ s with chatHistory := (setKV s.chatHistory roomId
            (trimHist (histOf s roomId ++
              [⟨trimStr message, trimStr username, tsOr timestamp now⟩]))) },
         [⟨recips, .receiveMessage
            ⟨trimStr message, trimStr username, tsOr timestamp now⟩⟩]) ∧
      (∀ t, timestamp = some t → t ≠ "" → tsOr timestamp now = t) ∧
      (timestamp = none → tsOr timestamp now = now) ∧
      (timestamp = some "" → tsOr timestamp now = now) := by
  refine ⟨(occupants s roomId).filter (fun x => x != c),
    send_success_eq s c roomId message username timestamp now hV hM hU hsess, ?_, ?_, ?_⟩
  · intro t ht hne
    rw [ht]
    simp [tsOr, hne]
  · intro ht
    rw [ht]
    simp [tsOr]
  · intro ht
    rw [ht]
    simp [tsOr]

/-- C8 counterexample: a successful send that provides the timestamp ""
stores and broadcasts the server wall-clock string, not the provided
value, because `timestamp || fallback` treats "" as absent. -/
theorem C8_cex :
    (step wState3 (.send "c1" U1 "hi" "alice" (some "") "SERVERCLOCK")).1.chatHistory =
        [(U1, [⟨"hi", "alice", "SERVERCLOCK"⟩])] ∧
      ("SERVERCLOCK" : String) ≠ "" := by
  decide

/-- C8 witness: the amended message-field behaviour at a concrete send
with a provided nonempty timestamp. -/
theorem C8_witness :
    isValidUUID U1 = true ∧ (¬ trimStr " hi " = "") ∧ (¬ trimStr "alice" = "") ∧
      findKV wState7.socketToUserMap "c1" = some ⟨trimStr "alice", U1⟩ ∧
      (∃ recips,
        step wState7 (.send "c1" U1 " hi " "alice" (some "10:00") "n") =
          ({ wState7 with chatHistory := (setKV wState7.chatHistory U1
              (trimHist (histOf wState7 U1 ++
                [⟨trimStr " hi ", trimStr "alice", tsOr (some "10:00") "n"⟩]))) },
           [⟨recips, .receiveMessage
              ⟨trimStr " hi ", trimStr "alice", tsOr (some "10:00") "n"⟩⟩]) ∧
        (∀ t, (some "10:00" : Option String) = some t → t ≠ "" →
          tsOr (some "10:00") "n" = t) ∧
        ((some "10:00" : Option String) = none → tsOr (some "10:00") "n" = "n") ∧
        ((some "10:00" : Option String) = some "" → tsOr (some "10:00") "n" = "n")) :=
  ⟨by decide, by decide, by decide, by decide,
    C8_message_fields wState7 "c1" U1 " hi " "alice" (some "10:00") "n" (by decide)
      (by decide) (by decide) (by decide)⟩

/-- C10: after every disconnect event the Session Table holds no entry
for that connection; moreover both when no Session existed and when the
Session's room-id is absent from the Room Registry, nothing is emitted
and the Room Registry and History Store are untouched, yet the Session
entry is still deleted. -/
theorem C10_disconnect_removes_session (s : ServerState) (c : String) :
    findKV (step s (.disconnect c)).1.socketToUserMap c = none ∧
      (findKV s.socketToUserMap c = none →
        (step s (.disconnect c)).1.rooms = s.rooms ∧
        (step s (.disconnect c)).1.chatHistory = s.chatHistory ∧
        (step s (.disconnect c)).2 = []) ∧
      (∀ info, findKV s.socketToUserMap c = some info →
        findKV s.rooms info.roomId = none →
        (step s (.disconnect c)).1.rooms = s.rooms ∧
        (step s (.disconnect c)).1.chatHistory = s.chatHistory ∧
        (step s (.disconnect c)).2 = []) := by
  refine ⟨?_, ?_, ?_⟩
  · have h := disc_sess s c c
    rw [if_pos rfl] at h
    exact h
  · intro hnone
    refine ⟨?_, ?_, ?_⟩ <;> simp [step, disconnectHandler, hnone]
  · intro info hinfo hroom
    refine ⟨?_, ?_, ?_⟩ <;> simp [step, disconnectHandler, hinfo, hroom]

/-- C10 witness: unconditional session removal at a concrete connection
whose Session names an unregistered room. -/
theorem C10_witness :
    findKV wState10.socketToUserMap "c1" = some ⟨"alice", U1⟩ ∧
      findKV wState10.rooms U1 = none ∧
      findKV (step wState10 (.disconnect "c1")).1.socketToUserMap "c1" = none ∧
      (step wState10 (.disconnect "c1")).1.rooms = wState10.rooms ∧
      (step wState10 (.disconnect "c1")).1.chatHistory = wState10.chatHistory ∧
      (step wState10 (.disconnect "c1")).2 = [] := by
  have h := C10_disconnect_removes_session wState10 "c1"
  have h2 := h.2.2 ⟨"alice", U1⟩ (by decide) (by decide)
  exact ⟨by decide, by decide, h.1, h2.1, h2.2.1, h2.2.2⟩

/-- C9: a connection whose Session names (u, R) and that is the sole
member of room R, on a valid re-join of that same room R, first
triggers deletion of R together with its entire history in the vacate
step; after the re-join R's history entry is absent and the
chat-history backfill emitted to the connection is the empty sequence. -/
theorem C9_rejoin_wipes_history (s : ServerState) (c R w u : String)
    (hV : isValidUUID R = true) (hW : ¬ trimStr w = "")
    (hsess : findKV s.socketToUserMap c = some ⟨u, R⟩)
    (hsole : findKV s.rooms R = some [u]) :
    findKV (step s (.join c R w)).1.chatHistory R = none ∧
      (step s (.join c R w)).2[1]? = some ⟨[c], .chatHistory []⟩ := by
  have hkills : vacKills s.rooms (⟨u, R⟩ : UserInfo).roomId (⟨u, R⟩ : UserInfo).username := by
    unfold vacKills
    rw [show (⟨u, R⟩ : UserInfo).roomId = R from rfl, hsole]
    simp
  constructor
  · have hhist := join_prev_hist s c R w ⟨u, R⟩ hV hW hsess R
    rw [if_pos ⟨rfl, hkills⟩] at hhist
    exact hhist
  · have hv := vacatePrev_hist s c ⟨u, R⟩ R
    rw [if_pos ⟨rfl, hkills⟩] at hv
    simp [step, joinRoom, hV, hW, hsess, histOf, hv, find_set]

/-- C9 witness: the re-join history wipe at a concrete sole-member room
that has messages stored. -/
theorem C9_witness :
    isValidUUID U1 = true ∧ (¬ trimStr "alice" = "") ∧
      findKV wState9.socketToUserMap "c1" = some ⟨"alice", U1⟩ ∧
      findKV wState9.rooms U1 = some ["alice"] ∧
      findKV wState9.chatHistory U1 = some [⟨"old", "alice", "t"⟩] ∧
      findKV (step wState9 (.join "c1" U1 "alice")).1.chatHistory U1 = none ∧
      (step wState9 (.join "c1" U1 "alice")).2[1]? = some ⟨["c1"], .chatHistory []⟩ := by
  have h := C9_rejoin_wipes_history wState9 "c1" U1 "alice" "alice" (by decide) (by decide)
    (by decide) (by decide)
  exact ⟨by decide, by decide, by decide, by decide, by decide, h.1, h.2⟩

theorem delKV_delKV {α : Type} (m : List (String × α)) (k : String) :
    delKV (delKV m k) k = delKV m k := by
  induction m with
  | nil => rfl
  | cons p rest ih =>
    obtain ⟨a, v⟩ := p
    by_cases hak : a = k
    · simp [delKV, hak, ih]
    · simp [delKV, hak, ih]

theorem vacFind_self_getD (m : List (String × List String)) (rid u : String) :
    (vacFind m rid u rid).getD [] = ((findKV m rid).getD []).erase u := by
  unfold vacFind
  rw [if_pos rfl]
  cases hm : findKV m rid with
  | none => simp
  | some la =>
    by_cases he : la.erase u = []
    · simp [he]
    · simp [he]

theorem join_prev_sockets (s : ServerState) (c roomId username : String) (prev : UserInfo)
    (hV : isValidUUID roomId = true) (hU : ¬ trimStr username = "")
    (hs : findKV s.socketToUserMap c = some prev) :
    (stepS s (.join c roomId username)).socketRooms =
      setKV (vacatePrev s c prev).socketRooms c roomId := by
  simp [stepS, step, joinRoom, hV, hU, hs]

theorem join_prev_outs (s : ServerState) (c roomId username : String) (prev : UserInfo)
    (hV : isValidUUID roomId = true) (hU : ¬ trimStr username = "")
    (hs : findKV s.socketToUserMap c = some prev) :
    (step s (.join c roomId username)).2.head? =
      some ⟨occupants (vacatePrev s c prev) prev.roomId,
        .updateUsers (membersOf (vacatePrev s c prev) prev.roomId)⟩ := by
  simp [step, joinRoom, hV, hU, hs]

theorem vacatePrev_sockets (s : ServerState) (c : String) (prev : UserInfo)
    (hsr : findKV s.socketRooms c = some prev.roomId) :
    (vacatePrev s c prev).socketRooms = delKV s.socketRooms c := by
  unfold vacatePrev
  rw [cleanupRoom_sockets]
  show (leaveRoom s c prev.roomId).socketRooms = delKV s.socketRooms c
  unfold leaveRoom
  rw [if_pos hsr]

/-- C6 (amended): when a connection whose Session names (u, A) — and
which is in socket.io room A — performs a valid join of a different
room B, then afterwards its Session names (trimmed w, B) only, the
trimmed new username is in B's member set, A's member set equals its
previous value with u erased (so when u was a member, A's member count
decreases by exactly one), A is deleted together with its history when
erasing u empties it, and the first emission is update-users with A's
remaining member list, delivered to A's remaining occupants.  (As
originally stated the claim fails in states where another live
connection shares the username, or where the join uses a different
username that another member of A holds.) -/
theorem C6_rejoin_atomicity (s : ServerState) (c B w : String) (prev : UserInfo)
    (hV : isValidUUID B = true) (hW : ¬ trimStr w = "")
    (hsess : findKV s.socketToUserMap c = some prev)
    (hsr : findKV s.socketRooms c = some prev.roomId)
    (hBA : B ≠ prev.roomId) :
    findKV (stepS s (.join c B w)).socketToUserMap c = some ⟨trimStr w, B⟩ ∧
      trimStr w ∈ membersOf (stepS s (.join c B w)) B ∧
      membersOf (stepS s (.join c B w)) prev.roomId =
        (membersOf s prev.roomId).erase prev.username ∧
      (∀ la, findKV s.rooms prev.roomId = some la → prev.username ∈ la →
        (membersOf (stepS s (.join c B w)) prev.roomId).length + 1 =
          (membersOf s prev.roomId).length) ∧
      (∀ la, findKV s.rooms prev.roomId = some la → la.erase prev.username = [] →
        findKV (stepS s (.join c B w)).rooms prev.roomId = none ∧
        findKV (stepS s (.join c B w)).chatHistory prev.roomId = none) ∧
      (step s (.join c B w)).2.head? =
        some ⟨occupants (stepS s (.join c B w)) prev.roomId,
          .updateUsers ((membersOf s prev.roomId).erase prev.username)⟩ := by
  have hroomsChar := fun r => join_prev_rooms s c B w prev hV hW hsess r
  have hhistChar := fun r => join_prev_hist s c B w prev hV hW hsess r
  have h3 : membersOf (stepS s (.join c B w)) prev.roomId =
      (membersOf s prev.roomId).erase prev.username := by
    unfold membersOf
    rw [hroomsChar prev.roomId, if_neg hBA]
    exact vacFind_self_getD s.rooms prev.roomId prev.username
  have h6b : membersOf (vacatePrev s c prev) prev.roomId =
      (membersOf s prev.roomId).erase prev.username := by
    unfold membersOf
    rw [vacatePrev_rooms s c prev prev.roomId]
    exact vacFind_self_getD s.rooms prev.roomId prev.username
  have h6a : occupants (vacatePrev s c prev) prev.roomId =
      occupants (stepS s (.join c B w)) prev.roomId := by
    unfold occupants
    rw [join_prev_sockets s c B w prev hV hW hsess,
      vacatePrev_sockets s c prev hsr]
    unfold setKV
    rw [delKV_delKV]
    rw [List.filter_cons]
    simp [hBA]
  refine ⟨?_, ?_, h3, ?_, ?_, ?_⟩
  · rw [join_prev_sess s c B w prev hV hW hsess c, if_pos rfl]
  · unfold membersOf
    rw [hroomsChar B, if_pos rfl]
    simp only [Option.getD_some]
    exact (mem_addUser _ _ _).mpr (Or.inl rfl)
  · intro la hla hu
    rw [h3]
    unfold membersOf
    rw [hla]
    simp only [Option.getD_some]
    have hlen := List.length_erase_of_mem hu
    have hpos : 0 < la.length := List.length_pos_of_mem hu
    omega
  · intro la hla he
    constructor
    · rw [hroomsChar prev.roomId, if_neg hBA]
      unfold vacFind
      rw [if_pos rfl]
      simp only [hla]
      rw [if_pos he]
    · rw [hhistChar prev.roomId]
      rw [if_pos ⟨rfl, by unfold vacKills; rw [hla]; simp [he]⟩]
  · rw [join_prev_outs s c B w prev hV hW hsess, h6a, h6b]

/-- C6 counterexample: c2 is joined to room A (Session (alice, A)) and
performs a valid join of a different room B under the username bob.
Afterwards A's member count has not decreased (it is 1 before and
after), and the connection's username bob is still in A's member set —
refuting the count-decrease and not-in-A conjuncts of the claim as
stated. -/
theorem C6_cex :
    findKV cexState6pre.socketToUserMap "c2" = some ⟨"alice", U1⟩ ∧
      membersOf cexState6pre U1 = ["bob"] ∧
      findKV cexState6.socketToUserMap "c2" = some ⟨"bob", U2⟩ ∧
      membersOf cexState6 U1 = ["bob"] ∧
      "bob" ∈ membersOf cexState6 U1 := by
  decide

/-- C6 witness: the amended rejoin behaviour at a concrete two-member
room, c1 moving from U1 to U2. -/
theorem C6_witness :
    isValidUUID U2 = true ∧ (¬ trimStr "alice" = "") ∧
      findKV wState7.socketToUserMap "c1" = some ⟨"alice", U1⟩ ∧
      findKV wState7.socketRooms "c1" = some (⟨"alice", U1⟩ : UserInfo).roomId ∧
      U2 ≠ (⟨"alice", U1⟩ : UserInfo).roomId ∧
      (findKV (stepS wState7 (.join "c1" U2 "alice")).socketToUserMap "c1" =
          some ⟨trimStr "alice", U2⟩ ∧
        trimStr "alice" ∈ membersOf (stepS wState7 (.join "c1" U2 "alice")) U2 ∧
        membersOf (stepS wState7 (.join "c1" U2 "alice")) U1 =
          (membersOf wState7 U1).erase "alice" ∧
        (∀ la, findKV wState7.rooms U1 = some la → "alice" ∈ la →
          (membersOf (stepS wState7 (.join "c1" U2 "alice")) U1).length + 1 =
            (membersOf wState7 U1).length) ∧
        (∀ la, findKV wState7.rooms U1 = some la → la.erase "alice" = [] →
          findKV (stepS wState7 (.join "c1" U2 "alice")).rooms U1 = none ∧
          findKV (stepS wState7 (.join "c1" U2 "alice")).chatHistory U1 = none) ∧
        (step wState7 (.join "c1" U2 "alice")).2.head? =
          some ⟨occupants (stepS wState7 (.join "c1" U2 "alice")) U1,
            .updateUsers ((membersOf wState7 U1).erase "alice")⟩) :=
  ⟨by decide, by decide, by decide, by decide, by decide,
    C6_rejoin_atomicity wState7 "c1" U2 "alice" ⟨"alice", U1⟩ (by decide) (by decide)
      (by decide) (by decide) (by decide)⟩
